import Mathlib

/-!
Verification development for the chat web application's streaming client
and turn-dispatch logic.

The central piece of code under study is `ChatService.sendMessageStream`
(frontend/src/services/chatService.ts): it fetches `/api/chat/stream`,
reads the response body in network-sized reads, splits each decoded read
on newlines, parses every line as JSON, and dispatches on the `type`
field (`content` / `done` / `error`), invoking the caller's `onChunk`,
`onComplete`, `onError` callbacks.  The page-level handlers live in
`ChatPage.sendMessage` (frontend/src/pages/ChatPage.tsx).

Strings are modelled as `List Char` (the TextDecoder byte/utf-8 layer is
abstracted away: a network read is modelled by the decoded text it
yields).  `JSON.parse` is modelled by an executable recursive-descent
JSON parser (`jparse`) over the same grammar; it is deliberately lenient
in two corners that no theorem below touches: raw control characters are
accepted inside string literals, and the leading-zero restriction on
numbers is not enforced.  Numbers keep their source spelling.
-/

namespace Svc

/-- Character strings, as the code's JS strings. -/
abbrev Str := List Char

/-- Whitespace for JS `String.prototype.trim` (the common characters). -/
def isWs (c : Char) : Bool :=
  c = ' ' || c = '\t' || c = '\n' || c = '\r' || c = '\x0b' || c = '\x0c'

/-- JS `line.trim()`: drop whitespace from both ends. -/
def trimS (s : Str) : Str :=
  ((s.dropWhile isWs).reverse.dropWhile isWs).reverse

/-- JS `chunk.split('\n')`: `split` on a single newline separator. -/
def splitLines : Str → List Str
  | [] => [[]]
  | c :: rest =>
    if c = '\n' then [] :: splitLines rest
    else
      match splitLines rest with
      | [] => [[c]]
      | l :: ls => (c :: l) :: ls

/-- JSON values as produced by `JSON.parse`.  Numbers keep their raw
source spelling. -/
inductive JValue where
  | str (s : Str)
  | num (raw : Str)
  | bool (b : Bool)
  | null
  | arr (elems : List JValue)
  | obj (fields : List (Str × JValue))

/-- JSON insignificant whitespace. -/
def jsonWs (c : Char) : Bool :=
  c = ' ' || c = '\t' || c = '\n' || c = '\r'

/-- Skip JSON whitespace. -/
def skipWs (s : Str) : Str := s.dropWhile jsonWs

/-- Hex digit value, for `\uXXXX` escapes. -/
def hexVal (c : Char) : Option Nat :=
  if '0' ≤ c ∧ c ≤ '9' then some (c.toNat - '0'.toNat)
  else if 'a' ≤ c ∧ c ≤ 'f' then some (c.toNat - 'a'.toNat + 10)
  else if 'A' ≤ c ∧ c ≤ 'F' then some (c.toNat - 'A'.toNat + 10)
  else none

/-- Single-character JSON string escapes. -/
def unescChar (e : Char) : Option Char :=
  if e = '"' then some '"'
  else if e = '\\' then some '\\'
  else if e = '/' then some '/'
  else if e = 'n' then some '\n'
  else if e = 't' then some '\t'
  else if e = 'r' then some '\r'
  else if e = 'b' then some '\x08'
  else if e = 'f' then some '\x0c'
  else none

/-- Parse the body of a JSON string literal (after the opening quote),
returning the decoded characters and the rest of the input after the
closing quote. -/
def pStringBody : Str → Option (Str × Str)
  | [] => none
  | '"' :: rest => some ([], rest)
  | '\\' :: 'u' :: h1 :: h2 :: h3 :: h4 :: rest =>
    match hexVal h1, hexVal h2, hexVal h3, hexVal h4 with
    | some a, some b, some c, some d =>
      match pStringBody rest with
      | some (s, r) => some (Char.ofNat (((a * 16 + b) * 16 + c) * 16 + d) :: s, r)
      | none => none
    | _, _, _, _ => none
  | '\\' :: e :: rest =>
    match unescChar e with
    | some c =>
      match pStringBody rest with
      | some (s, r) => some (c :: s, r)
      | none => none
    | none => none
  | c :: rest =>
    match pStringBody rest with
    | some (s, r) => some (c :: s, r)
    | none => none

/-- Take a maximal run of decimal digits. -/
def pDigits : Str → Str × Str
  | [] => ([], [])
  | c :: rest =>
    if c.isDigit then
      match pDigits rest with
      | (ds, r) => (c :: ds, r)
    else ([], c :: rest)

/-- Exponent tail of a JSON number. -/
def pExpTail (acc pre : Str) (s : Str) : Option (JValue × Str) :=
  match s with
  | '+' :: r =>
    match pDigits r with
    | ([], _) => none
    | (ds, s2) => some (.num (acc ++ pre ++ '+' :: ds), s2)
  | '-' :: r =>
    match pDigits r with
    | ([], _) => none
    | (ds, s2) => some (.num (acc ++ pre ++ '-' :: ds), s2)
  | _ =>
    match pDigits s with
    | ([], _) => none
    | (ds, s2) => some (.num (acc ++ pre ++ ds), s2)

/-- Optional exponent part of a JSON number. -/
def pExp (acc : Str) (s : Str) : Option (JValue × Str) :=
  match s with
  | 'e' :: r => pExpTail acc ['e'] r
  | 'E' :: r => pExpTail acc ['E'] r
  | _ => some (.num acc, s)

/-- Optional fraction part of a JSON number. -/
def pFrac (acc : Str) (s : Str) : Option (JValue × Str) :=
  match s with
  | '.' :: r =>
    match pDigits r with
    | ([], _) => none
    | (fs, s2) => pExp (acc ++ '.' :: fs) s2
  | _ => pExp acc s

/-- Parse a JSON number (sign, digits, fraction, exponent). -/
def pNumber (s : Str) : Option (JValue × Str) :=
  match s with
  | '-' :: r =>
    match pDigits r with
    | ([], _) => none
    | (ds, s2) => pFrac ('-' :: ds) s2
  | _ =>
    match pDigits s with
    | ([], _) => none
    | (ds, s2) => pFrac ds s2

/-- Match a literal keyword, returning the rest of the input. -/
def litMatch : Str → Str → Option Str
  | [], s => some s
  | _ :: _, [] => none
  | c :: cs, d :: ds => if c = d then litMatch cs ds else none

/-- Parser mode: a value, an object's member list, or an array's
element list. -/
inductive PIn where
  | val (s : Str)
  | mems (s : Str)
  | elems (s : Str)

/-- Parser result, matching the mode. -/
inductive POut where
  | val (v : JValue) (rest : Str)
  | mems (ms : List (Str × JValue)) (rest : Str)
  | elems (vs : List JValue) (rest : Str)

/-- The recursive core of the JSON parser.  Fuel only bounds nesting
depth; `jparse` supplies enough for any input. -/
def pAux : Nat → PIn → Option POut
  | 0, _ => none
  | fuel + 1, .val s =>
    match skipWs s with
    | [] => none
    | c :: rest =>
      if c = '\x7b' then
        match skipWs rest with
        | '\x7d' :: r2 => some (.val (.obj []) r2)
        | _ =>
          match pAux fuel (.mems rest) with
          | some (.mems ms r) => some (.val (.obj ms) r)
          | _ => none
      else if c = '[' then
        match skipWs rest with
        | ']' :: r2 => some (.val (.arr []) r2)
        | _ =>
          match pAux fuel (.elems rest) with
          | some (.elems vs r) => some (.val (.arr vs) r)
          | _ => none
      else if c = '"' then
        match pStringBody rest with
        | some (str, r) => some (.val (.str str) r)
        | none => none
      else if c = 't' then
        match litMatch ['r', 'u', 'e'] rest with
        | some r => some (.val (.bool true) r)
        | none => none
      else if c = 'f' then
        match litMatch ['a', 'l', 's', 'e'] rest with
        | some r => some (.val (.bool false) r)
        | none => none
      else if c = 'n' then
        match litMatch ['u', 'l', 'l'] rest with
        | some r => some (.val .null r)
        | none => none
      else
        match pNumber (c :: rest) with
        | some (v, r) => some (.val v r)
        | none => none
  | fuel + 1, .mems s =>
    match skipWs s with
    | '"' :: rest =>
      match pStringBody rest with
      | some (key, r2) =>
        match skipWs r2 with
        | ':' :: r3 =>
          match pAux fuel (.val r3) with
          | some (.val v r4) =>
            match skipWs r4 with
            | ',' :: r5 =>
              match pAux fuel (.mems r5) with
              | some (.mems ms r6) => some (.mems ((key, v) :: ms) r6)
              | _ => none
            | '\x7d' :: r5 => some (.mems [(key, v)] r5)
            | _ => none
          | _ => none
        | _ => none
      | none => none
    | _ => none
  | fuel + 1, .elems s =>
    match pAux fuel (.val s) with
    | some (.val v r) =>
      match skipWs r with
      | ',' :: r2 =>
        match pAux fuel (.elems r2) with
        | some (.elems vs r3) => some (.elems (v :: vs) r3)
        | _ => none
      | ']' :: r2 => some (.elems [v] r2)
      | _ => none
    | _ => none

/-- Model of `JSON.parse line`: parse one value, require only trailing
whitespace after it. -/
def jparse (line : Str) : Option JValue :=
  match pAux (line.length + 1) (.val line) with
  | some (.val v rest) => if skipWs rest = [] then some v else none
  | _ => none

/-- Property lookup on a parsed JSON object: `JSON.parse` keeps the last
occurrence of a duplicated key, so the lookup prefers later fields. -/
def jlookup : List (Str × JValue) → Str → Option JValue
  | [], _ => none
  | (k, v) :: rest, key =>
    match jlookup rest key with
    | some v2 => some v2
    | none => if k = key then some v else none

/-- Result of a JS member access `data.k`. -/
inductive JsAccess where
  | val (v : JValue)
  | notDefined
  | thrown

/-- JS member access `data.k` on a `JSON.parse` result: objects look the
key up (absent keys give `undefined`), `null` throws a TypeError, and
primitives or arrays yield `undefined` for these property names. -/
def jMember (data : JValue) (k : Str) : JsAccess :=
  match data with
  | .obj fs =>
    match jlookup fs k with
    | some v => .val v
    | none => .notDefined
  | .null => .thrown
  | _ => .notDefined

/-- JS string coercion of a scalar JSON value. -/
def jsShowScalar (v : JValue) : Str :=
  match v with
  | .str s => s
  | .num raw => raw
  | .bool true => ['t', 'r', 'u', 'e']
  | .bool false => ['f', 'a', 'l', 's', 'e']
  | .null => ['n', 'u', 'l', 'l']
  | .arr _ => []
  | .obj _ => ['[', 'o', 'b', 'j', 'e', 'c', 't', ' ', 'O', 'b', 'j', 'e', 'c', 't', ']']

/-- Join with commas, as JS `Array.prototype.toString`. -/
def joinComma : List Str → Str
  | [] => []
  | [s] => s
  | s :: rest => s ++ ',' :: joinComma rest

/-- JS string coercion of a JSON value, as performed by
`fullContent += data.content` and `msg.content + chunk`.  Exact for
strings (the only case the protocol produces); one level deep for
arrays. -/
def jsShow (v : JValue) : Str :=
  match v with
  | .arr xs => joinComma (xs.map jsShowScalar)
  | v => jsShowScalar v

/-- JS string coercion of a member-access result. -/
def jsAccessShow (a : JsAccess) : Str :=
  match a with
  | .val v => jsShow v
  | .notDefined => ['u', 'n', 'd', 'e', 'f', 'i', 'n', 'e', 'd']
  | .thrown => []

/-- The StreamFrame discriminated union of the protocol (spec section 3):
`content`, `done`, or `error`. -/
inductive Frame where
  | content (text : Str)
  | done (finalText : Str)
  | error (message : Str)
  deriving DecidableEq

/-- The key strings of the wire protocol. -/
def kType : Str := ['t', 'y', 'p', 'e']

/-- The `content` field key. -/
def kContent : Str := ['c', 'o', 'n', 't', 'e', 'n', 't']

/-- The `error` field key. -/
def kError : Str := ['e', 'r', 'r', 'o', 'r']

/-- The `done` tag string. -/
def sDone : Str := ['d', 'o', 'n', 'e']

/-- Classification of one stream line, translating the per-line body of
the read loop in `sendMessageStream`: blank lines are skipped
(`line.trim() === ''`), lines that `JSON.parse` rejects are skipped with
a logged warning (the catch also swallows the TypeError a `null` line
causes), and otherwise the `type` field selects the frame.  The text of
a `done` frame is supplied later by the accumulator, so it is left empty
here. -/
def lineFrame (line : Str) : Option Frame :=
  if trimS line = [] then none
  else
    match jparse line with
    | none => none
    | some data =>
      match jMember data kType with
      | .val (.str t) =>
        if t = kContent then some (.content (jsAccessShow (jMember data kContent)))
        else if t = sDone then some (.done [])
        else if t = kError then some (.error (jsAccessShow (jMember data kError)))
        else none
      | _ => none

/-- One callback invocation observed by the caller of
`sendMessageStream`: `onChunk`, `onComplete`, or `onError`. -/
inductive CbEvent where
  | chunk (s : Str)
  | complete (s : Str)
  | error (s : Str)
  deriving DecidableEq

/-- Processing of one line inside the read loop, given the current
`fullContent` accumulator: returns the callbacks invoked, the new
accumulator, and whether the function returned (terminal frame). -/
def processLine (full : Str) (line : Str) : List CbEvent × Str × Bool :=
  match lineFrame line with
  | none => ([], full, false)
  | some (.content c) => ([.chunk c], full ++ c, false)
  | some (.done _) => ([.complete full], full, true)
  | some (.error e) => ([.error e], full, true)

/-- The read loop of `sendMessageStream` over an already-split sequence
of lines: process lines in order, stop at the first terminal frame.  If
the line list is exhausted (the reader reported `done`) without a
terminal frame, the loop just breaks: no further callback is invoked. -/
def runLines : List Str → Str → List CbEvent
  | [], _ => []
  | l :: ls, full =>
    match processLine full l with
    | (evs, full2, stop) => if stop then evs else evs ++ runLines ls full2

/-- The lines seen by the loop: each network read is decoded and split
on newlines independently (there is no carry of a trailing partial line
into the next read). -/
def linesOfReads (reads : List Str) : List Str :=
  (reads.map splitLines).flatten

/-- Model of `ChatService.sendMessageStream` on the happy fetch path: the
response body arrives as `reads`; the returned list is the sequence of
callback invocations the caller observes. -/
def sendMessageStream (reads : List Str) : List CbEvent :=
  runLines (linesOfReads reads) []

/-- Message role in the UI, `ChatMessage.type` in
frontend/src/types/chat.ts. -/
inductive Role where
  | user
  | assistant
  deriving DecidableEq

/-- A UI message of `ChatPage` (frontend/src/pages/ChatPage.tsx).
Identifiers model the generated uuids; timestamps are not modelled. -/
structure ChatMsg where
  id : Nat
  content : Str
  role : Role
  sessionId : Str
  isStreaming : Bool
  isErr : Bool
  deriving DecidableEq

/-- The `ChatPage` component state touched by `sendMessage`. -/
structure PageState where
  messages : List ChatMsg
  inputValue : Str
  isLoading : Bool
  currentSessionId : Str
  deriving DecidableEq

/-- The request body sent to `/api/chat/stream`. -/
structure ChatReq where
  message : Str
  sessionId : Str
  userId : Str
  deriving DecidableEq

/-- The fixed user id `'user_001'` used by `ChatPage.sendMessage`. -/
def user001 : Str := ['u', 's', 'e', 'r', '_', '0', '0', '1']

/-- The synchronous phase of `ChatPage.sendMessage`: the guard
`if (!inputValue.trim() || isLoading) return;`, then append the user
message, clear the input, set the loading flag, append the assistant
placeholder, and issue the streaming request.  Returns the new state and
the request, or the unchanged state and no request when the guard
rejects.  `uid` and `aid` stand for the two fresh uuids. -/
def sendMessageStart (st : PageState) (uid aid : Nat) : PageState × Option ChatReq :=
  if trimS st.inputValue = [] ∨ st.isLoading then (st, none)
  else
    let userMsg : ChatMsg :=
      ⟨uid, trimS st.inputValue, .user, st.currentSessionId, false, false⟩
    let aiMsg : ChatMsg :=
      ⟨aid, [], .assistant, st.currentSessionId, true, false⟩
    ({ st with
        messages := st.messages ++ [userMsg, aiMsg]
        inputValue := []
        isLoading := true },
      some ⟨userMsg.content, st.currentSessionId, user001⟩)

/-- The `onChunk` handler of `ChatPage.sendMessage`: map over the
message list, appending the delta to the message whose id is the
assistant placeholder's. -/
def applyChunk (aid : Nat) (c : Str) (msgs : List ChatMsg) : List ChatMsg :=
  msgs.map fun m => if m.id = aid then { m with content := m.content ++ c } else m

/-- The `onComplete` handler: replace the placeholder's content with the
full text and clear its streaming flag. -/
def applyComplete (aid : Nat) (full : Str) (msgs : List ChatMsg) : List ChatMsg :=
  msgs.map fun m =>
    if m.id = aid then { m with content := full, isStreaming := false } else m

/-- The fixed apology text the error handler writes into the assistant
placeholder. -/
def apologyText : Str := ("抱歉，我现在无法回复您的消息，请稍后再试。".data)

/-- The `onError` handler of `ChatPage.sendMessage`: overwrite the
placeholder's content with the fixed apology text and clear its
streaming flag.  The error string itself is only logged and toasted. -/
def applyError (aid : Nat) (_e : Str) (msgs : List ChatMsg) : List ChatMsg :=
  msgs.map fun m =>
    if m.id = aid then { m with content := apologyText, isStreaming := false } else m

/-- The error taxonomy of spec section 7 (the kinds used below). -/
inductive DispatchErr where
  | invalidInput
  | sessionBusy
  | unknownProvider
  | unsupportedModel
  | providerErr
  deriving DecidableEq

/-- Modelled from the spec: the backend StreamingDispatcher is not under
src/; this is step 1 of `dispatch` (spec section 4.4): validate
`userText` is non-empty and under a maximum length, failing with
`InvalidInput` otherwise, before any state is created. -/
def validateInput (maxLen : Nat) (userText : Str) : Option DispatchErr :=
  if userText.length = 0 then some .invalidInput
  else if maxLen < userText.length then some .invalidInput
  else none

/-- Modelled from the spec: the backend per-session lock is not under
src/; this is step 2 of `dispatch` (spec section 4.4): acquire the
exclusive per-session lock, failing immediately with `SessionBusy` when
it is already held, with no queueing. -/
def acquireLock (held : List Str) (sid : Str) : Except DispatchErr (List Str) :=
  if sid ∈ held then .error .sessionBusy else .ok (sid :: held)

/-- The `ProviderError` message text. -/
def providerErrorMsg : Str :=
  ['P', 'r', 'o', 'v', 'i', 'd', 'e', 'r', 'E', 'r', 'r', 'o', 'r']

/-- Modelled from the spec: the backend StreamingDispatcher's tie-break
policy is not under src/ (spec section 4.4): each provider output unit
either decodes to a text delta (`some`) or is malformed (`none`);
malformed units are skipped with a warning; if no valid unit is ever
produced the turn fails with `ProviderError`, otherwise the valid deltas
are emitted in order followed by a `done` frame carrying their
concatenation. -/
def dispatchFrames (units : List (Option Str)) : List Frame :=
  let valid := units.filterMap id
  if valid.isEmpty then [.error providerErrorMsg]
  else valid.map .content ++ [.done (valid.flatten)]

/-- Modelled from the spec: the backend ProviderRegistry is not under
src/; a provider configuration (spec section 3): key, default model,
endpoint, `configured` flag, `current` flag, and the static
supported-model enumeration. -/
structure PConfig where
  key : Str
  model : Str
  configured : Bool
  current : Bool
  supported : List Str
  deriving DecidableEq

/-- Modelled from the spec: the per-configuration effect of a switch to
provider `k` with model `m`: the matching configuration becomes
`current` and records the model, every other one loses the flag. -/
def switchUpd (k m : Str) (q : PConfig) : PConfig :=
  if q.key = k then { q with model := m, current := true }
  else { q with current := false }

/-- Modelled from the spec: `ProviderRegistry.switch(providerKey,
modelId)` (spec section 4.1): validate the key names a known,
`configured` provider and the model is in its enumeration, then
atomically clear the previous `current` flag and set the new one,
recording the chosen model. -/
def switchProvider (regs : List PConfig) (k m : Str) : Except DispatchErr (List PConfig) :=
  match regs.find? (fun p => p.key = k) with
  | none => .error .unknownProvider
  | some p =>
    if p.configured = false then .error .unknownProvider
    else if m ∈ p.supported then .ok (regs.map (switchUpd k m))
    else .error .unsupportedModel

/-- Number of provider configurations whose `current` flag is set. -/
def countCurrent (regs : List PConfig) : Nat :=
  (regs.filter fun p => p.current).length

/-- A terminal callback: `onComplete` or `onError`. -/
def isTermEv : CbEvent → Bool
  | .chunk _ => false
  | .complete _ => true
  | .error _ => true

/-- No terminal callback occurs strictly before the last position. -/
def wellTerminated : List CbEvent → Bool
  | [] => true
  | e :: rest => if isTermEv e then rest.isEmpty else wellTerminated rest

/-- Concatenation, in delivery order, of the texts passed to `onChunk`. -/
def chunkConcat : List CbEvent → Str
  | [] => []
  | .chunk s :: rest => s ++ chunkConcat rest
  | .complete _ :: rest => chunkConcat rest
  | .error _ :: rest => chunkConcat rest

/-- Whether processing this line makes the loop return (the line carries
a terminal frame).  Independent of the accumulator. -/
def lineTerminates (line : Str) : Bool :=
  (processLine [] line).2.2

/-- Modelled from the spec: the backend serializer for one delta is not
under src/; spec section 6 fixes the wire form
`\x7b"type":"content","content":"<delta text>"\x7d` as one
newline-delimited JSON object, so the delta text is JSON-escaped.  The
escaper covers the characters that must not appear raw inside a JSON
string on one line. -/
def escChar (c : Char) : Str :=
  if c = '"' then ['\\', '"']
  else if c = '\\' then ['\\', '\\']
  else if c = '\n' then ['\\', 'n']
  else if c = '\r' then ['\\', 'r']
  else if c = '\t' then ['\\', 't']
  else [c]

/-- JSON escaping of a whole delta text. -/
def escString (s : Str) : Str := (s.map escChar).flatten

/-- The concrete characters preceding the delta text in a `content`
line. -/
def jPre : Str :=
  ['\x7b', '"', 't', 'y', 'p', 'e', '"', ':', '"', 'c', 'o', 'n', 't', 'e', 'n', 't',
    '"', ',', '"', 'c', 'o', 'n', 't', 'e', 'n', 't', '"', ':', '"']

/-- The concrete characters following the delta text. -/
def jPost : Str := ['"', '\x7d']

/-- One `content` frame line carrying the delta `u`. -/
def mkContentLine (u : Str) : Str := jPre ++ escString u ++ jPost

/-- The terminal `done` frame line `\x7b"type":"done"\x7d`. -/
def lineDone : Str :=
  ['\x7b', '"', 't', 'y', 'p', 'e', '"', ':', '"', 'd', 'o', 'n', 'e', '"', '\x7d']

/-- The wire image of a provider turn, one network read per frame line:
every read boundary falls between lines. -/
def readsOfUnits (us : List Str) : List Str :=
  us.map (fun u => mkContentLine u ++ ['\n']) ++ [lineDone ++ ['\n']]

/-- Witness data: the delta `Hi`. -/
def hiS : Str := ['H', 'i']

/-- Witness data: the delta ` there`. -/
def thereS : Str := [' ', 't', 'h', 'e', 'r', 'e']

/-- Witness data: a single network read carrying two content frames and
the `done` frame. -/
def wireHiThere : Str :=
  mkContentLine hiS ++ '\n' :: (mkContentLine thereS ++ '\n' :: (lineDone ++ ['\n']))

/-- The texts passed to `onChunk`, in delivery order. -/
def chunkTexts (evs : List CbEvent) : List Str :=
  evs.filterMap fun e =>
    match e with
    | .chunk s => some s
    | .complete _ => none
    | .error _ => none

/-- The whole wire image of a turn, as one byte string. -/
def wireOfUnits (us : List Str) : Str := (readsOfUnits us).flatten

/-- Counterexample data: the wire image of the single delta `Hi`, cut
after twenty characters, in the middle of its frame line. -/
def splitA : Str := (wireOfUnits [hiS]).take 20

/-- Counterexample data: the remainder of that wire image. -/
def splitB : Str := (wireOfUnits [hiS]).drop 20

/-- Counterexample data: a read carrying one content frame and then the
stream ends, with no terminal line. -/
def wireNoTerminal : Str := mkContentLine hiS ++ ['\n']

/-- Witness data: a stream line that is not valid JSON. -/
def badLine : Str := ['n', 'o', 't', ' ', 'j', 's', 'o', 'n']

/-- Witness data: a session identifier. -/
def sid1 : Str := ['s', '1']

/-- Counterexample data: a session mid-stream, with one user message and
the assistant placeholder already holding the delivered partial text
`Hel`. -/
def msgsMid : List ChatMsg :=
  [⟨0, ['H', 'i', '?'], .user, sid1, false, false⟩,
    ⟨1, ['H', 'e', 'l'], .assistant, sid1, true, false⟩]

/-- Witness data: a page state with whitespace-only input. -/
def stBlank : PageState := ⟨msgsMid, [' ', '\t'], false, sid1⟩

/-- Witness data: a page state with non-blank input but a turn already
in flight. -/
def stBusy : PageState := ⟨msgsMid, ['h', 'i'], true, sid1⟩

/-- Witness data: a registry with two configured providers, `o` being
current. -/
def regsDemo : List PConfig :=
  [⟨['o'], ['m'], true, true, [['m']]⟩,
    ⟨['d'], ['x'], true, false, [['x'], ['y']]⟩]

/-- Witness data: the registry after switching to provider `d` with
model `y`. -/
def regsSwitched : List PConfig :=
  [⟨['o'], ['m'], true, false, [['m']]⟩,
    ⟨['d'], ['y'], true, true, [['x'], ['y']]⟩]

/-! Theorems. -/

/-- Processing one line either skips it, emits one chunk and extends the
accumulator by the same text, or emits one terminal callback and stops:
an exhaustive case analysis of the loop body. -/
theorem processLine_cases (full line : Str) :
    processLine full line = ([], full, false) ∨
    (∃ c, processLine full line = ([.chunk c], full ++ c, false)) ∨
    processLine full line = ([.complete full], full, true) ∨
    (∃ e, processLine full line = ([.error e], full, true)) := by
  cases h : lineFrame line with
  | none => exact Or.inl (by simp [processLine, h])
  | some fr =>
    cases fr with
    | content c => exact Or.inr (Or.inl ⟨c, by simp [processLine, h]⟩)
    | done t => exact Or.inr (Or.inr (Or.inl (by simp [processLine, h])))
    | error e => exact Or.inr (Or.inr (Or.inr ⟨e, by simp [processLine, h]⟩))

/-- The loop never emits a callback after a terminal one. -/
theorem runLines_wellTerminated (lines : List Str) :
    ∀ full, wellTerminated (runLines lines full) = true := by
  induction lines with
  | nil => intro full; rfl
  | cons l ls ih =>
    intro full
    rcases processLine_cases full l with hp | ⟨c, hp⟩ | hp | ⟨e, hp⟩
    · simpa [runLines, hp] using ih full
    · simpa [runLines, hp, wellTerminated, isTermEv] using ih (full ++ c)
    · simp [runLines, hp, wellTerminated, isTermEv]
    · simp [runLines, hp, wellTerminated, isTermEv]

/-- A well-terminated event list holds at most one terminal event. -/
theorem wellTerminated_count_le_one (evs : List CbEvent)
    (h : wellTerminated evs = true) : (evs.filter isTermEv).length ≤ 1 := by
  induction evs with
  | nil => simp
  | cons e rest ih =>
    by_cases ht : isTermEv e = true
    · have hrest : rest.isEmpty = true := by simpa [wellTerminated, ht] using h
      have : rest = [] := by simpa [List.isEmpty_iff] using hrest
      subst this
      simp [ht]
    · have hb : isTermEv e = false := by simpa using ht
      have h2 : wellTerminated rest = true := by simpa [wellTerminated, hb] using h
      simpa [List.filter, hb] using ih h2

/-- In a well-terminated event list every event before the last is
non-terminal. -/
theorem wellTerminated_dropLast (evs : List CbEvent)
    (h : wellTerminated evs = true) :
    (evs.dropLast.all fun e => !isTermEv e) = true := by
  induction evs with
  | nil => simp
  | cons e rest ih =>
    cases rest with
    | nil => simp
    | cons r rs =>
      have hb : isTermEv e = false := by
        by_cases ht : isTermEv e = true
        · exfalso
          have h3 := h
          simp [wellTerminated, ht] at h3
        · simpa using ht
      have h2 : wellTerminated (r :: rs) = true := by
        simpa [wellTerminated, hb] using h
      have := ih h2
      simpa [List.dropLast, hb] using this

/-- Claim C2: over any response byte stream, at most one terminal
callback (`onComplete` or `onError`) is delivered, and every callback
strictly before the last one is a non-terminal `onChunk`: nothing is
delivered after a terminal frame is observed. -/
theorem stream_at_most_one_terminal_and_last (reads : List Str) :
    ((sendMessageStream reads).filter isTermEv).length ≤ 1 ∧
    ((sendMessageStream reads).dropLast.all fun e => !isTermEv e) = true := by
  have h := runLines_wellTerminated (linesOfReads reads) []
  exact ⟨wellTerminated_count_le_one _ h, wellTerminated_dropLast _ h⟩

/-- The loop maintains the invariant that the accumulator extended by
the chunk texts it still emits equals the `done` frame's final text. -/
theorem runLines_roundtrip (lines : List Str) :
    ∀ full f, (runLines lines full).getLast? = some (.complete f) →
      full ++ chunkConcat (runLines lines full) = f := by
  induction lines with
  | nil => intro full f h; simp [runLines] at h
  | cons l ls ih =>
    intro full f h
    rcases processLine_cases full l with hp | ⟨c, hp⟩ | hp | ⟨e, hp⟩
    · have hstep : runLines (l :: ls) full = runLines ls full := by
        simp [runLines, hp]
      rw [hstep] at h ⊢
      exact ih full f h
    · have hstep : runLines (l :: ls) full = .chunk c :: runLines ls (full ++ c) := by
        simp [runLines, hp]
      rw [hstep] at h
      have h2 : (runLines ls (full ++ c)).getLast? = some (.complete f) := by
        cases hr : runLines ls (full ++ c) with
        | nil => rw [hr] at h; simp at h
        | cons x xs => rw [hr] at h; rw [List.getLast?_cons_cons] at h; exact h
      rw [hstep]
      simp only [chunkConcat]
      rw [← List.append_assoc]
      exact ih (full ++ c) f h2
    · have hstep : runLines (l :: ls) full = [.complete full] := by
        simp [runLines, hp]
      rw [hstep] at h
      simp at h
      rw [hstep]
      simpa [chunkConcat] using h
    · have hstep : runLines (l :: ls) full = [.error e] := by
        simp [runLines, hp]
      rw [hstep] at h
      simp at h

/-- Claim C1: whenever a turn ends with a `done` frame (the last
callback is `onComplete finalText`), the concatenation in delivery order
of the `content` texts passed to `onChunk` equals that `finalText`. -/
theorem stream_chunk_concat_eq_finalText (reads : List Str) (f : Str)
    (h : (sendMessageStream reads).getLast? = some (.complete f)) :
    chunkConcat (sendMessageStream reads) = f := by
  simpa using runLines_roundtrip (linesOfReads reads) [] f h

/-- Witness for claim C1 on the spec section 8 scenario: the provider
streams `Hi` then ` there`; the chunks concatenate to the final text
`Hi there`. -/
theorem stream_chunk_concat_eq_finalText_witness :
    (sendMessageStream [wireHiThere]).getLast? = some (.complete (hiS ++ thereS)) ∧
    chunkConcat (sendMessageStream [wireHiThere]) = hiS ++ thereS :=
  ⟨by decide, stream_chunk_concat_eq_finalText [wireHiThere] (hiS ++ thereS) (by decide)⟩

/-- The escaping of one character never contains a raw newline. -/
theorem escChar_no_nl (c : Char) : '\n' ∉ escChar c := by
  unfold escChar
  split
  · simp
  · split
    · simp
    · split
      · simp
      · split
        · simp
        · split
          · simp
          · rename_i h1 h2 h3 h4 h5
            simp only [List.mem_singleton]
            intro he
            exact h3 he.symm

/-- An escaped delta text never contains a raw newline, so it stays on
one wire line. -/
theorem escString_no_nl (s : Str) : '\n' ∉ escString s := by
  induction s with
  | nil => simp [escString]
  | cons c cs ih =>
    simp only [escString, List.map_cons, List.flatten_cons] at *
    intro hm
    rcases List.mem_append.1 hm with h | h
    · exact escChar_no_nl c h
    · exact ih h

/-- Splitting a newline-terminated line yields the line and one empty
trailing piece, exactly as JS `split` does. -/
theorem splitLines_line (xs : Str) (h : '\n' ∉ xs) :
    splitLines (xs ++ ['\n']) = [xs, []] := by
  induction xs with
  | nil => rfl
  | cons c cs ih =>
    have hc : c ≠ '\n' := by intro e; exact h (by simp [e])
    have h2 : '\n' ∉ cs := fun m => h (List.mem_cons_of_mem _ m)
    simp [splitLines, hc, ih h2]

/-- A content frame line contains no raw newline. -/
theorem mkContentLine_no_nl (u : Str) : '\n' ∉ mkContentLine u := by
  intro hm
  rw [mkContentLine] at hm
  rcases List.mem_append.1 hm with hm2 | hm2
  · rcases List.mem_append.1 hm2 with hm3 | hm3
    · simp [jPre] at hm3
    · exact escString_no_nl u hm3
  · simp [jPost] at hm2

/-- Parsing an escaped string body recovers the original text: the
parser inverts `escString` up to the closing quote. -/
theorem pStringBody_esc (s : Str) :
    ∀ rest, pStringBody (escString s ++ '"' :: rest) = some (s, rest) := by
  induction s with
  | nil => intro rest; rfl
  | cons c cs ih =>
    intro rest
    have hs : escString (c :: cs) = escChar c ++ escString cs := by
      simp [escString]
    rw [hs, List.append_assoc]
    by_cases h1 : c = '"'
    · subst h1; simp [escChar, pStringBody, unescChar, ih rest]
    · by_cases h2 : c = '\\'
      · subst h2; simp [escChar, pStringBody, unescChar, ih rest]
      · by_cases h3 : c = '\n'
        · subst h3; simp [escChar, pStringBody, unescChar, ih rest]
        · by_cases h4 : c = '\r'
          · subst h4; simp [escChar, pStringBody, unescChar, ih rest]
          · by_cases h5 : c = '\t'
            · subst h5; simp [escChar, pStringBody, unescChar, ih rest]
            · simp [escChar, h1, h2, h3, h4, h5, pStringBody, ih rest]

/-- The parser accepts a whole content frame line, yielding the
two-field object, for any fuel at least four. -/
theorem pAux_contentLine (u : Str) (g : Nat) :
    pAux (g + 4) (.val (mkContentLine u)) =
      some (.val (JValue.obj [(kType, .str kContent), (kContent, .str u)]) []) := by
  simp [mkContentLine, jPre, jPost, pAux, skipWs, jsonWs, pStringBody, unescChar, hexVal,
        pStringBody_esc, kType, kContent]

/-- `JSON.parse` of a content frame line yields the two-field object
carrying the delta text. -/
theorem jparse_contentLine (u : Str) :
    jparse (mkContentLine u) =
      some (.obj [(kType, .str kContent), (kContent, .str u)]) := by
  have hl : (mkContentLine u).length + 1 = (escString u).length + 28 + 4 := by
    simp [mkContentLine, jPre, jPost]
  rw [jparse, hl, pAux_contentLine]
  rfl

/-- Trimming a line that starts with a non-whitespace character leaves
it non-empty. -/
theorem trimS_cons_ne_nil (c : Char) (l : Str) (h : isWs c = false) :
    trimS (c :: l) ≠ [] := by
  intro hcontra
  have h1 : List.dropWhile isWs (c :: l) = c :: l := by
    simp [List.dropWhile_cons, h]
  rw [trimS, h1] at hcontra
  have h2 : List.dropWhile isWs (c :: l).reverse = [] := by
    simpa using hcontra
  have h3 := (List.dropWhile_eq_nil_iff).mp h2 c (by simp)
  rw [h] at h3
  exact Bool.false_ne_true h3

/-- A content frame line classifies as a `content` frame carrying
exactly the original delta text. -/
theorem lineFrame_contentLine (u : Str) :
    lineFrame (mkContentLine u) = some (.content u) := by
  have ht : trimS (mkContentLine u) ≠ [] := by
    rw [mkContentLine, jPre]
    exact trimS_cons_ne_nil _ _ (by decide)
  simp [lineFrame, ht, jparse_contentLine, jMember, jlookup, jsAccessShow, jsShow,
        jsShowScalar, kType, kContent, sDone, kError]

/-- Processing the `done` frame line emits `onComplete` with the
accumulated text and stops the loop. -/
theorem processLine_done (full : Str) :
    processLine full lineDone = ([.complete full], full, true) := by
  have h : lineFrame lineDone = some (.done []) := by decide
  simp [processLine, h]

/-- Processing a content frame line emits `onChunk` with the delta and
extends the accumulator. -/
theorem processLine_contentLine (full u : Str) :
    processLine full (mkContentLine u) = ([.chunk u], full ++ u, false) := by
  simp [processLine, lineFrame_contentLine]

/-- The lines the loop sees for line-aligned reads: each content line
followed by the empty piece `split` leaves after its newline, then the
`done` line and its empty piece. -/
theorem linesOfReads_readsOfUnits (us : List Str) :
    linesOfReads (readsOfUnits us) =
      (us.map fun u => [mkContentLine u, []]).flatten ++ [lineDone, []] := by
  have hmap : us.map (fun u => splitLines (mkContentLine u ++ ['\n'])) =
      us.map fun u => [mkContentLine u, []] :=
    List.map_congr_left fun u _ => splitLines_line _ (mkContentLine_no_nl u)
  have hdone : splitLines (lineDone ++ ['\n']) = [lineDone, []] :=
    splitLines_line _ (by decide)
  simp [linesOfReads, readsOfUnits, List.map_append, List.map_map, Function.comp, hdone]
  rw [show (splitLines ∘ fun u => mkContentLine u ++ ['\n']) =
        fun u => splitLines (mkContentLine u ++ ['\n']) from rfl, hmap]

/-- The loop on line-aligned frame lines delivers exactly one chunk per
delta, in order, then completes with the accumulated concatenation. -/
theorem runLines_units (us : List Str) :
    ∀ full,
      runLines ((us.map fun u => [mkContentLine u, []]).flatten ++ [lineDone, []]) full =
        us.map CbEvent.chunk ++ [.complete (full ++ us.flatten)] := by
  induction us with
  | nil =>
    intro full
    simp [runLines, processLine_done]
  | cons u us ih =>
    intro full
    have hb : processLine (full ++ u) [] = ([], full ++ u, false) := rfl
    simp [runLines, processLine_contentLine, hb, ih (full ++ u), List.append_assoc]

/-- Claim C4 amended: when every network read boundary falls between
frame lines (here each frame line arrives as its own read), the deltas
delivered to the caller are exactly the units the provider produced, in
production order, with no reordering, duplication or drops; a frame line
split across two reads is instead dropped (see the counterexample). -/
theorem stream_line_aligned_delivery (us : List Str) :
    sendMessageStream (readsOfUnits us) =
      us.map CbEvent.chunk ++ [.complete us.flatten] := by
  rw [sendMessageStream, linesOfReads_readsOfUnits, runLines_units]
  simp

/-- Counterexample to claim C4: the same wire bytes as the single
provider unit `Hi`, but cut into two reads in the middle of the frame
line: both fragments fail to parse, the delta is dropped, and the turn
completes with empty text instead of delivering `Hi`. -/
theorem stream_split_read_drops_delta_cex :
    splitA ++ splitB = wireOfUnits [hiS] ∧
    chunkTexts (sendMessageStream [splitA, splitB]) = [] ∧
    sendMessageStream [splitA, splitB] = [.complete []] := by
  decide

/-- Whether a line stops the loop does not depend on the accumulator. -/
theorem processLine_stop (full line : Str) :
    (processLine full line).2.2 = lineTerminates line := by
  rw [lineTerminates]
  cases h : lineFrame line with
  | none => simp [processLine, h]
  | some fr => cases fr <;> simp [processLine, h]

/-- If some line of the stream carries a terminal frame, the loop
delivers exactly one terminal callback. -/
theorem runLines_terminal_of_line (lines : List Str) :
    ∀ full, (∃ l ∈ lines, lineTerminates l = true) →
      ((runLines lines full).filter isTermEv).length = 1 := by
  induction lines with
  | nil => intro full h; simp at h
  | cons l ls ih =>
    intro full h
    rcases processLine_cases full l with hp | ⟨c, hp⟩ | hp | ⟨e, hp⟩
    · have hnt : lineTerminates l = false := by
        rw [← processLine_stop full l, hp]
      have hstep : runLines (l :: ls) full = runLines ls full := by
        simp [runLines, hp]
      rw [hstep]
      apply ih full
      rcases h with ⟨l2, hm, hterm⟩
      rcases List.mem_cons.1 hm with rfl | hm2
      · rw [hnt] at hterm; exact absurd hterm (by simp)
      · exact ⟨l2, hm2, hterm⟩
    · have hnt : lineTerminates l = false := by
        rw [← processLine_stop full l, hp]
      have hstep : runLines (l :: ls) full = .chunk c :: runLines ls (full ++ c) := by
        simp [runLines, hp]
      rw [hstep]
      have : ((runLines ls (full ++ c)).filter isTermEv).length = 1 := by
        apply ih (full ++ c)
        rcases h with ⟨l2, hm, hterm⟩
        rcases List.mem_cons.1 hm with rfl | hm2
        · rw [hnt] at hterm; exact absurd hterm (by simp)
        · exact ⟨l2, hm2, hterm⟩
      simpa [List.filter, isTermEv] using this
    · have hstep : runLines (l :: ls) full = [.complete full] := by
        simp [runLines, hp]
      rw [hstep]
      rfl
    · have hstep : runLines (l :: ls) full = [.error e] := by
        simp [runLines, hp]
      rw [hstep]
      rfl

/-- Claim C3 amended: the caller receives exactly one terminal callback
(`onComplete` or `onError`) whenever the response stream contains a
terminal frame line; but when the stream ends without one, the call
returns with neither callback invoked (see the counterexample). -/
theorem stream_terminal_of_terminal_line (reads : List Str)
    (h : ∃ l ∈ linesOfReads reads, lineTerminates l = true) :
    ((sendMessageStream reads).filter isTermEv).length = 1 :=
  runLines_terminal_of_line (linesOfReads reads) [] h

/-- Witness for the amended claim C3: a stream with two content frames
and a `done` frame delivers exactly one terminal callback. -/
theorem stream_terminal_of_terminal_line_witness :
    (∃ l ∈ linesOfReads [wireHiThere], lineTerminates l = true) ∧
    ((sendMessageStream [wireHiThere]).filter isTermEv).length = 1 :=
  ⟨by decide, stream_terminal_of_terminal_line [wireHiThere] (by decide)⟩

/-- Counterexample to claim C3: a response stream that ends after one
content frame without any terminal line; `sendMessageStream` invokes
`onChunk` once and returns without ever invoking `onComplete` or
`onError`. -/
theorem stream_no_terminal_callback_cex :
    sendMessageStream [wireNoTerminal] = [.chunk hiS] ∧
    (sendMessageStream [wireNoTerminal]).filter isTermEv = [] := by
  decide

/-- Claim C5: a stream line that `JSON.parse` rejects is skipped — no
callback is invoked for it and the loop continues unchanged; and, with
the backend dispatcher modelled from the spec, a turn whose provider
produced no valid output unit fails with `ProviderError`. -/
theorem invalid_line_skipped_and_provider_error :
    (∀ full line, jparse line = none → processLine full line = ([], full, false)) ∧
    (∀ units : List (Option Str), units.filterMap id = [] →
      dispatchFrames units = [.error providerErrorMsg]) := by
  constructor
  · intro full line h
    have hf : lineFrame line = none := by
      simp [lineFrame, h]
    simp [processLine, hf]
  · intro units h
    simp [dispatchFrames, h]

/-- Witness for claim C5: the line `not json` is skipped with the
accumulator untouched, and an all-malformed provider output turns into
the single `ProviderError` frame. -/
theorem invalid_line_skipped_and_provider_error_witness :
    processLine hiS badLine = ([], hiS, false) ∧
    dispatchFrames [none, none] = [.error providerErrorMsg] :=
  ⟨invalid_line_skipped_and_provider_error.1 hiS badLine rfl,
    invalid_line_skipped_and_provider_error.2 [none, none] rfl⟩

/-- Claim C6: when the trimmed input is empty, `sendMessage` returns
before any state is created — the message list, input and loading flag
are unchanged and no request is issued; and, with the backend dispatch
validation modelled from the spec, input over the maximum length is
rejected with `InvalidInput`. -/
theorem empty_input_rejected_overlong_invalid :
    (∀ st uid aid, trimS st.inputValue = [] → sendMessageStart st uid aid = (st, none)) ∧
    (∀ maxLen (t : Str), maxLen < t.length →
      validateInput maxLen t = some .invalidInput) := by
  constructor
  · intro st uid aid h
    simp [sendMessageStart, h]
  · intro maxLen t h
    by_cases h0 : t.length = 0
    · simp [validateInput, h0]
    · simp [validateInput, h0, h]

/-- Witness for claim C6: a whitespace-only input is rejected with the
state unchanged, and a six-character input over a five-character limit
is `InvalidInput`. -/
theorem empty_input_rejected_overlong_invalid_witness :
    sendMessageStart stBlank 7 8 = (stBlank, none) ∧
    validateInput 5 ['a', 'b', 'c', 'd', 'e', 'f'] = some .invalidInput :=
  ⟨empty_input_rejected_overlong_invalid.1 stBlank 7 8 (by decide),
    empty_input_rejected_overlong_invalid.2 5 ['a', 'b', 'c', 'd', 'e', 'f'] (by decide)⟩

/-- Counterexample to claim C7: the placeholder already holds the
delivered partial text `Hel`; when the error handler runs, its content
becomes the fixed apology text, of which `Hel` is not even a prefix —
the partial content is discarded, not preserved. -/
theorem error_discards_partial_cex :
    (applyError 1 providerErrorMsg msgsMid).map ChatMsg.content =
      [['H', 'i', '?'], apologyText] ∧
    (['H', 'e', 'l'].isPrefixOf apologyText) = false := by
  decide

/-- Claim C7 amended: on an error callback the handler overwrites the
assistant placeholder's content with the fixed apology text and clears
its streaming flag — the already-delivered partial text is discarded,
not preserved — while every other message is left unchanged. -/
theorem error_overwrites_placeholder (aid : Nat) (e : Str) (msgs : List ChatMsg)
    (i : Nat) (h : i < msgs.length) :
    (applyError aid e msgs)[i]? =
      some (if msgs[i].id = aid
        then { msgs[i] with content := apologyText, isStreaming := false }
        else msgs[i]) := by
  simp [applyError, List.getElem?_map, List.getElem?_eq_getElem h]

/-- Witness for the amended claim C7: on the mid-stream session, the
error handler rewrites the placeholder to the apology text and leaves
the user message untouched. -/
theorem error_overwrites_placeholder_witness :
    (applyError 1 providerErrorMsg msgsMid)[1]? =
      some ⟨1, apologyText, .assistant, sid1, false, false⟩ ∧
    (applyError 1 providerErrorMsg msgsMid)[0]? = some ⟨0, ['H', 'i', '?'], .user, sid1, false, false⟩ := by
  constructor
  · have := error_overwrites_placeholder 1 providerErrorMsg msgsMid 1 (by decide)
    simpa [msgsMid] using this
  · have := error_overwrites_placeholder 1 providerErrorMsg msgsMid 0 (by decide)
    simpa [msgsMid, sid1] using this

/-- Claim C8: while a turn is in flight (`isLoading` is set),
`sendMessage` returns immediately — the message list and the rest of the
state are unchanged and no second request is issued; and, with the
backend per-session lock modelled from the spec, acquiring the lock of a
busy session fails with `SessionBusy`. -/
theorem busy_session_rejected :
    (∀ st uid aid, st.isLoading = true → sendMessageStart st uid aid = (st, none)) ∧
    (∀ (held : List Str) sid, sid ∈ held →
      acquireLock held sid = .error .sessionBusy) := by
  constructor
  · intro st uid aid h
    simp [sendMessageStart, h]
  · intro held sid h
    simp [acquireLock, h]

/-- Witness for claim C8: on a busy state the message list stays as it
was and no request is produced; the modelled lock refuses the busy
session. -/
theorem busy_session_rejected_witness :
    sendMessageStart stBusy 7 8 = (stBusy, none) ∧
    acquireLock [sid1] sid1 = .error .sessionBusy :=
  ⟨busy_session_rejected.1 stBusy 7 8 (by decide),
    busy_session_rejected.2 [sid1] sid1 (by decide)⟩

/-- Claim C10: the chunk handler maps over the message list touching
only the entry whose id is the placeholder's, appending the delta to its
content; every other message is returned unchanged, and the list keeps
its length. -/
theorem chunk_mutates_only_placeholder (aid : Nat) (c : Str) (msgs : List ChatMsg)
    (i : Nat) (h : i < msgs.length) :
    (applyChunk aid c msgs).length = msgs.length ∧
    (applyChunk aid c msgs)[i]? =
      some (if msgs[i].id = aid
        then { msgs[i] with content := msgs[i].content ++ c }
        else msgs[i]) := by
  constructor
  · simp [applyChunk]
  · simp [applyChunk, List.getElem?_map, List.getElem?_eq_getElem h]

/-- Witness for claim C10: a delta lands on the placeholder (id 1) and
the user message (id 0) is untouched. -/
theorem chunk_mutates_only_placeholder_witness :
    (applyChunk 1 [' ', 'w'] msgsMid).length = msgsMid.length ∧
    (applyChunk 1 [' ', 'w'] msgsMid)[0]? =
      some ⟨0, ['H', 'i', '?'], .user, sid1, false, false⟩ := by
  constructor
  · exact (chunk_mutates_only_placeholder 1 [' ', 'w'] msgsMid 0 (by decide)).1
  · have := (chunk_mutates_only_placeholder 1 [' ', 'w'] msgsMid 0 (by decide)).2
    simpa [msgsMid, sid1] using this

/-- A switch preserves every configuration's key. -/
theorem switchUpd_key (k m : Str) (q : PConfig) : (switchUpd k m q).key = q.key := by
  by_cases h : q.key = k <;> simp [switchUpd, h]

/-- Applying the same switch twice to one configuration equals applying
it once. -/
theorem switchUpd_idem (k m : Str) (q : PConfig) :
    switchUpd k m (switchUpd k m q) = switchUpd k m q := by
  by_cases h : q.key = k <;> simp [switchUpd, h]

/-- After a switch, a configuration is current exactly when its key is
the switched-to key. -/
theorem switchUpd_current (k m : Str) (q : PConfig) :
    (switchUpd k m q).current = decide (q.key = k) := by
  by_cases h : q.key = k <;> simp [switchUpd, h]

/-- The shape of `switchProvider` as a top-level match, for rewriting. -/
theorem switchProvider_eq_map (regs : List PConfig) (k m : Str) :
    switchProvider regs k m =
      match regs.find? (fun p => p.key = k) with
      | none => .error .unknownProvider
      | some p =>
        if p.configured = false then .error .unknownProvider
        else if m ∈ p.supported then .ok (regs.map (switchUpd k m))
        else .error .unsupportedModel := by
  rw [switchProvider]

/-- A successful switch found a configured provider supporting the
model, and mapped the update over the registry. -/
theorem switchProvider_ok (regs : List PConfig) (k m : Str) (regs2 : List PConfig)
    (h : switchProvider regs k m = .ok regs2) :
    ∃ p, regs.find? (fun p => p.key = k) = some p ∧ p.configured = true ∧
      m ∈ p.supported ∧ regs2 = regs.map (switchUpd k m) := by
  rw [switchProvider_eq_map] at h
  cases hf : regs.find? (fun p => p.key = k) with
  | none => rw [hf] at h; simp at h
  | some p =>
    rw [hf] at h
    by_cases hc : p.configured = false
    · simp [hc] at h
    · by_cases hm : m ∈ p.supported
      · refine ⟨p, rfl, by simpa using hc, hm, ?_⟩
        simp [hc, hm] at h
        exact h.symm
      · simp [hc, hm] at h

/-- With pairwise-distinct provider keys, exactly one configuration
matches a key that occurs in the registry. -/
theorem filter_key_eq_one (regs : List PConfig) (k : Str)
    (hnd : (regs.map PConfig.key).Nodup) (p : PConfig) (hp : p ∈ regs)
    (hpk : p.key = k) :
    (regs.filter fun q => q.key = k).length = 1 := by
  induction regs with
  | nil => simp at hp
  | cons q qs ih =>
    rw [List.map_cons, List.nodup_cons] at hnd
    rcases List.mem_cons.1 hp with rfl | hq
    · have hnone : ∀ r ∈ qs, ¬(r.key = k) := by
        intro r hr e
        exact hnd.1 (by rw [hpk, ← e]; exact List.mem_map_of_mem PConfig.key hr)
      have hfil : qs.filter (fun q => q.key = k) = [] := by
        rw [List.filter_eq_nil_iff]
        intro r hr
        simpa using hnone r hr
      simp [List.filter_cons, hpk, hfil]
    · have hqk : ¬(q.key = k) := by
        intro e
        exact hnd.1 (by rw [e, ← hpk]; exact List.mem_map_of_mem PConfig.key hq)
      simp [List.filter_cons, hqk]
      exact ih hnd.2 hq

/-- Claim C9: with the ProviderRegistry modelled from the spec, a
successful `switch` leaves exactly one configuration current (given the
registry's keys are pairwise distinct), and calling `switch` again with
the same provider key and model succeeds without error and changes
nothing. -/
theorem switch_idempotent_one_current (regs : List PConfig) (k m : Str)
    (regs2 : List PConfig) (hnd : (regs.map PConfig.key).Nodup)
    (h : switchProvider regs k m = .ok regs2) :
    switchProvider regs2 k m = .ok regs2 ∧ countCurrent regs2 = 1 := by
  rcases switchProvider_ok regs k m regs2 h with ⟨p, hf, hcfg, hm, hregs2⟩
  have hpk : p.key = k := by
    have := List.find?_some hf
    simpa using this
  have hfp : switchUpd k m p = { p with model := m, current := true } := by
    simp [switchUpd, hpk]
  have hfind2 : regs2.find? (fun q => q.key = k) = some (switchUpd k m p) := by
    rw [hregs2, List.find?_map]
    have hpred : ((fun q : PConfig => decide (q.key = k)) ∘ switchUpd k m) =
        fun q : PConfig => decide (q.key = k) := by
      funext q
      simp [Function.comp, switchUpd_key]
    rw [hpred, hf]
    rfl
  constructor
  · rw [switchProvider_eq_map, hfind2, hfp]
    have hmap : regs2.map (switchUpd k m) = regs2 := by
      rw [hregs2, List.map_map]
      exact List.map_congr_left fun q _ => switchUpd_idem k m q
    simp [hcfg, hm, hmap]
  · rw [countCurrent, hregs2, List.filter_map]
    have hpred : ((fun q : PConfig => q.current) ∘ switchUpd k m) =
        fun q : PConfig => decide (q.key = k) := by
      funext q
      simp [Function.comp, switchUpd_current]
    rw [hpred, List.length_map]
    exact filter_key_eq_one regs k hnd p (List.mem_of_find?_eq_some hf) hpk

/-- Witness for claim C9: switching the two-provider registry to `d`
with model `y` succeeds; a second identical switch returns the same
registry without error, and exactly one provider is current. -/
theorem switch_idempotent_one_current_witness :
    switchProvider regsSwitched ['d'] ['y'] = .ok regsSwitched ∧
    countCurrent regsSwitched = 1 :=
  switch_idempotent_one_current regsDemo ['d'] ['y'] regsSwitched (by decide) rfl

end Svc
